import Mathlib

deriving instance DecidableEq for Except

/-!
Verification of the hisfs virtual file system (homeinfogmbh/hisfs).

Shallow embedding of the core data model and operations:
  * permission evaluation  (src/hisfs/orm.py Inode.readable_by/writable_by/
    executable_by and src/fs/orm.py Inode._readable_by/_writable_by/
    _executable_by/_parents_readable),
  * quota accounting       (src/hisfs/orm.py CustomerQuota),
  * content replacement    (src/hisfs/orm.py and src/fs/orm.py Inode.data setter),
  * path resolution        (src/fs/orm.py Inode._node_path/node_path/revpath/path),
  * inode removal          (src/fs/orm.py and src/hisfs/orm.py Inode.remove/unlink),
  * thumbnail sizing       (src/hisfs/thumbnails.py _get_new_resolution).

The relational store is modelled as a list of inode rows; the content store
as a size oracle plus an explicit event trace where ordering matters.
-/

namespace HisFS

/-- A HIS account (principal).  `root` is the super-user flag;
`customer` is the id of the account's customer (tenant). -/
structure Account where
  id : Nat
  customer : Nat
  root : Bool
deriving DecidableEq, Repr

/-- One permission triad (read/write/execute bits). -/
structure Permissions where
  read : Bool
  write : Bool
  execute : Bool
deriving DecidableEq, Repr

/-- Extracts one triad from the POSIX mode integer; `shift` is 6 for the
user triad, 3 for the group triad, 0 for the other triad. -/
def triad (bits shift : Nat) : Permissions :=
  ⟨bits.testBit (shift + 2), bits.testBit (shift + 1), bits.testBit shift⟩

/-- POSIX-style file mode (vfslib.PosixMode / homeinfo.lib.fs.FileMode):
three triads over the low nine bits of the stored integer. -/
structure FileMode where
  user : Permissions
  group : Permissions
  other : Permissions
deriving DecidableEq, Repr

/-- Source `PosixMode.from_int` / `FileMode(int)`. -/
def FileMode.from_int (m : Nat) : FileMode :=
  ⟨triad m 6, triad m 3, triad m 0⟩

/-- An inode row.  `id` is the primary key (`none` while the record is not
yet persisted), `parent` the nullable self-FK, `owner` the account id,
`group` the customer id, `mode` the stored mode integer and `file` the
nullable content-store reference (null means directory). -/
structure Inode where
  id : Option Nat
  parent : Option Nat
  name : String
  owner : Nat
  group : Nat
  mode : Nat
  file : Option Nat
deriving DecidableEq, Repr

/-- The inode table. -/
abbrev DB := List Inode

/-- Source `Inode.isdir` (hisfs and fs): a null content reference means a
directory. -/
def Inode.isdir (self : Inode) : Bool := self.file.isNone

/-- Source `Inode.isfile`: negation of `isdir`. -/
def Inode.isfile (self : Inode) : Bool := !self.isdir

/- ----------------------------------------------------------------- -/
/- Permission evaluation                                              -/
/- ----------------------------------------------------------------- -/

/-- src/hisfs/orm.py `Inode.readable_by(user, group)`:
`any((user.root, mode.user.read and owner == user, mode.group.read and
group == group, mode.other.read))`.  Peewee compares the FK column with
the model instance by primary key, hence `self.owner == user.id`. -/
def Inode.readable_by (self : Inode) (user : Account) (group : Nat) : Bool :=
  user.root ||
    ((FileMode.from_int self.mode).user.read && self.owner == user.id) ||
    ((FileMode.from_int self.mode).group.read && self.group == group) ||
    (FileMode.from_int self.mode).other.read

/-- src/hisfs/orm.py `Inode.writable_by(user, group)`. -/
def Inode.writable_by (self : Inode) (user : Account) (group : Nat) : Bool :=
  user.root ||
    ((FileMode.from_int self.mode).user.write && self.owner == user.id) ||
    ((FileMode.from_int self.mode).group.write && self.group == group) ||
    (FileMode.from_int self.mode).other.write

/-- src/hisfs/orm.py `Inode.executable_by(user, group)`. -/
def Inode.executable_by (self : Inode) (user : Account) (group : Nat) : Bool :=
  user.root ||
    ((FileMode.from_int self.mode).user.execute && self.owner == user.id) ||
    ((FileMode.from_int self.mode).group.execute && self.group == group) ||
    (FileMode.from_int self.mode).other.execute

/-- src/fs/orm.py `Inode._readable_by(account)`.  The `elif` chain checks
`account.root` first; `ownerAcc` is the dereferenced `self.owner` account
(needed for `self.owner.customer`). -/
def fs_readable_by (mode : Nat) (ownerAcc account : Account) : Bool :=
  if account.root then true
  else if (FileMode.from_int mode).user.read && account.id == ownerAcc.id then true
  else if (FileMode.from_int mode).group.read && account.customer == ownerAcc.customer then true
  else if (FileMode.from_int mode).other.read then true
  else false

/-- src/fs/orm.py `Inode._writable_by(account)`.  Unlike `_readable_by`,
the `elif` chain has no `account.root` branch. -/
def fs_writable_by (mode : Nat) (ownerAcc account : Account) : Bool :=
  if (FileMode.from_int mode).user.write && account.id == ownerAcc.id then true
  else if (FileMode.from_int mode).group.write && account.customer == ownerAcc.customer then true
  else if (FileMode.from_int mode).other.write then true
  else false

/-- src/fs/orm.py `Inode._executable_by(account)`.  Like `_writable_by`,
no `account.root` branch. -/
def fs_executable_by (mode : Nat) (ownerAcc account : Account) : Bool :=
  if (FileMode.from_int mode).user.execute && account.id == ownerAcc.id then true
  else if (FileMode.from_int mode).group.execute && account.customer == ownerAcc.customer then true
  else if (FileMode.from_int mode).other.execute then true
  else false

/-- Result of the `while` loop in src/fs/orm.py `Inode._parents_readable`:
either the loop returns a boolean, or it raises `ConsistencyError`, or it
never returns within the given fuel bound. -/
inductive WalkResult
| returns (b : Bool)
| consistencyErr
| runsForever
deriving DecidableEq, Repr

/-- src/fs/orm.py `Inode._parents_readable(account)` loop body.  The state
is the loop variable `parent` paired with its owner account (needed by
`_executable_by`).  The source reads

    parent = self.inode.parent
    while parent is not None:
        if parent.isdir:
            if not parent._executable_by(account):
                return False
        else:
            raise ConsistencyError(parent)
    return True

and the body never reassigns `parent`, which the embedding mirrors by
recursing on the unchanged state; fuel exhaustion models the loop not
terminating. -/
def fs_parents_readable_loop (account : Account) :
    Nat → Option (Inode × Account) → WalkResult
  | _, none => .returns true
  | 0, some _ => .runsForever
  | fuel + 1, some (p, powner) =>
    if p.isdir then
      if fs_executable_by p.mode powner account then
        fs_parents_readable_loop account fuel (some (p, powner))
      else .returns false
    else .consistencyErr

/- ----------------------------------------------------------------- -/
/- Quota accounting                                                   -/
/- ----------------------------------------------------------------- -/

/-- Quota related failures. -/
inductive QErr
| quotaExceeded (quota : Int)
deriving DecidableEq, Repr

/-- src/hisfs/orm.py `CustomerQuota` row: a customer id and the quota in
bytes. -/
structure CustomerQuota where
  customer : Nat
  quota : Int
deriving DecidableEq, Repr

/-- src/hisfs/orm.py `CustomerQuota.files`: the content-bearing inode rows
of the customer (`Inode.group == customer` and the file reference is not
null). -/
def CustomerQuota.files (self : CustomerQuota) (db : DB) : List Inode :=
  db.filter (fun i => i.group == self.customer && i.file.isSome)

/-- src/hisfs/orm.py `CustomerQuota.used`: `sum(file.size for file in
self.files)`, recomputed from the live rows on every call.  `sizes` is the
content store's size oracle (filedb `size(ident)`). -/
def CustomerQuota.used (self : CustomerQuota) (sizes : Nat → Nat) (db : DB) : Int :=
  ((self.files db).map (fun i => (sizes (i.file.getD 0) : Int))).sum

/-- src/hisfs/orm.py `CustomerQuota.free`: `self.quota - self.used`. -/
def CustomerQuota.free (self : CustomerQuota) (sizes : Nat → Nat) (db : DB) : Int :=
  self.quota - self.used sizes db

/-- src/hisfs/orm.py `CustomerQuota.alloc(size)`:
`if self.free < size: raise QuotaExceeded(quota=self.quota); return True`. -/
def CustomerQuota.alloc (self : CustomerQuota) (sizes : Nat → Nat) (db : DB)
    (size : Int) : Except QErr Bool :=
  if self.free sizes db < size then .error (.quotaExceeded self.quota)
  else .ok true

/- ----------------------------------------------------------------- -/
/- Content replacement (the data setter)                              -/
/- ----------------------------------------------------------------- -/

/-- Errors of the data setter. -/
inductive DErr
| notAFile
| writeError
deriving DecidableEq, Repr

/-- Content-store calls issued by the data setter, in order. -/
inductive StoreEvent
| addData
| deleteRef (ref : Option Nat)
deriving DecidableEq, Repr

/-- src/hisfs/orm.py and src/fs/orm.py `Inode.data` setter:

    if self._file is None and self.id is not None:
        raise NotAFile()
    try:
        file_id = add(data)
    except FileError:
        raise WriteError()
    else:
        with suppress(FileError):
            delete(self._file)
        self._file = file_id

`addResult` is the content store's answer to `add` (`none` models
`FileError`); `deleteFails` records whether `delete` raises `FileError`,
which the source suppresses, so it influences nothing.  The result is the
(possibly updated) inode, the raised error, and the trace of store calls. -/
def data_setter (self : Inode) (addResult : Option Nat) (deleteFails : Bool) :
    Inode × Option DErr × List StoreEvent :=
  if self.file.isNone && self.id.isSome then (self, some .notAFile, [])
  else
    match addResult with
    | none => (self, some .writeError, [.addData])
    | some fid =>
      ({ self with file := some fid }, none, [.addData, .deleteRef self.file])

/- ----------------------------------------------------------------- -/
/- Path resolution                                                    -/
/- ----------------------------------------------------------------- -/

/-- Python `str.join(sep, parts)`. -/
def pjoin (sep : String) : List String → String
  | [] => ""
  | [x] => x
  | x :: y :: xs => x ++ sep ++ pjoin sep (y :: xs)

/-- Python `str.split(sep)` for a one-character separator, over the
character list. -/
def splitOnChar (sep : Char) : List Char → List String
  | [] => [""]
  | c :: cs =>
    let rest := splitOnChar sep cs
    if c = sep then "" :: rest
    else
      match rest with
      | [] => [String.mk [c]]
      | r :: rs => String.mk (c :: r.data) :: rs

/-- Python `str.split(sep)` for a one-character separator. -/
def psplit (s : String) (sep : Char) : List String := splitOnChar sep s.data

/-- Python `str.startswith` for the short literal prefixes used here. -/
def startsWithStr (s pre : String) : Bool := pre.data.isPrefixOf s.data

/-- Python `posixpath.normpath`: drop empty and `.` components, resolve
`..` against preceding components, keep leading slashes (doubled slash is
preserved as such). -/
def normpath (path : String) : String :=
  if path = "" then "." else
  let initialSlashes : Nat :=
    if startsWithStr path "/" then
      if startsWithStr path "//" && !startsWithStr path "///" then 2 else 1
    else 0
  let comps := psplit path '/'
  let newComps := comps.foldl (fun acc comp =>
    if comp = "" || comp = "." then acc
    else if comp ≠ ".." || (initialSlashes = 0 && acc = []) ||
        acc.getLast? = some ".." then acc ++ [comp]
    else if acc ≠ [] then acc.dropLast
    else acc) []
  let joined := String.join (List.replicate initialSlashes "/") ++ pjoin "/" newComps
  if joined = "" then "." else joined

/-- The component list fed to src/fs/orm.py `Inode._node_path`:
`node_path` normalizes the path, maps the empty path and `"/"` to the
empty list and otherwise splits on the separator.  The source reverses
the split and pops from the end of the list, which processes the
components in their original order; the embedding keeps that order. -/
def pathComponents (path : String) : List String :=
  if path = "" then []
  else
    let n := normpath path
    if n = "/" then [] else psplit n '/'

/-- Resolution failures of src/fs/orm.py `_node_path`.  The classes in
src/fs/errors.py declare a mandatory `path` constructor argument, but the
raise sites in `_node_path` call `NoSuchNode()` and `NotADirectory()`
without it, so no path is ever attached (in CPython this call even fails
with `TypeError` before the intended exception is constructed);
the payload is therefore modelled as `Option String` and is always
`none`.  `doesNotExist` models a bare peewee `DoesNotExist` escaping
`root_for`. -/
inductive RErr
| noSuchNode (path : Option String)
| notADirectory (path : Option String)
| doesNotExist
deriving DecidableEq, Repr

/-- src/fs/orm.py `Inode.getrel(name, parent, owner, group)` for a
non-null parent row: first row matching name, parent id, owner and
group (`Model.get` returns the first match). -/
def getrel (db : DB) (nm : String) (parent : Inode) (owner group : Nat) :
    Option Inode :=
  db.find? (fun r =>
    r.name == nm && r.parent == parent.id && r.owner == owner && r.group == group)

/-- src/fs/orm.py `Inode.root_for(owner, group)` with both scope arguments
given: first row with null file reference and null parent in the scope. -/
def root_for (db : DB) (owner group : Nat) : Option Inode :=
  db.find? (fun r =>
    r.file.isNone && r.parent.isNone && r.owner == owner && r.group == group)

/-- The loop of src/fs/orm.py `Inode._node_path`: look up each component
under the current parent; a missing child raises `NoSuchNode()`, a file
matched while components remain raises `NotADirectory()`; matched nodes
are appended to the accumulated node chain. -/
def node_path_aux (db : DB) (owner group : Nat) :
    Inode → List Inode → List String → Except RErr (List Inode)
  | _, acc, [] => .ok acc
  | parent, acc, c :: rest =>
    match getrel db c parent owner group with
    | none => .error (.noSuchNode none)
    | some found =>
      if found.isfile && !rest.isEmpty then .error (.notADirectory none)
      else node_path_aux db owner group found (acc ++ [found]) rest

/-- src/fs/orm.py `Inode.node_path(path, owner, group)`: resolve the
scope root, then walk the components; the returned chain starts with the
root node. -/
def node_path (db : DB) (owner group : Nat) (path : String) :
    Except RErr (List Inode) :=
  match root_for db owner group with
  | none => .error .doesNotExist
  | some root => node_path_aux db owner group root [root] (pathComponents path)

/-- Dereference a nullable parent FK: peewee resolves the stored id
against the table (first row with that primary key). -/
def parentChain (db : DB) : Nat → Inode → Option (List Inode)
  | 0, _ => none
  | fuel + 1, r =>
    match r.parent with
    | none => some []
    | some pid =>
      match db.find? (fun x => x.id == some pid) with
      | none => none
      | some p => (parentChain db fuel p).map (fun l => p :: l)

/-- src/fs/orm.py `Inode.revpath`: yields the inode's own name, then the
names of all ancestors, then `''` for the root directory.  The ancestor
walk is a while loop over parent FKs; `fuel` bounds it (`none` models a
dangling FK or a walk that does not finish within the bound). -/
def revpathNames (db : DB) (fuel : Nat) (r : Inode) : Option (List String) :=
  (parentChain db fuel r).map (fun ps => r.name :: ps.map Inode.name ++ [""])

/-- src/fs/orm.py `Inode.path`: `PATHSEP.join(reversed(revpath))`. -/
def inode_path (db : DB) (fuel : Nat) (r : Inode) : Option String :=
  (revpathNames db fuel r).map (fun l => pjoin "/" l.reverse)

/- ----------------------------------------------------------------- -/
/- Removal                                                            -/
/- ----------------------------------------------------------------- -/

/-- Removal failures.  `outOfFuel` models recursion that does not finish
within the fuel bound. -/
inductive FErr
| directoryNotEmpty
| rootDeletionError
| outOfFuel
deriving DecidableEq, Repr

/-- src/fs/orm.py `Inode.unlink`: `get(parent == self)` raises
`DirectoryNotEmpty` when a child row exists; otherwise the content blob
(if any) is deleted and the row removed.  Returns the new table, the
trace of deleted row ids, and the raised error (if any). -/
def fs_unlink (db : DB) (node : Inode) :
    DB × List (Option Nat) × Option FErr :=
  match db.find? (fun r => r.parent == node.id) with
  | some _ => (db, [], some .directoryNotEmpty)
  | none => (db.filter (fun r => !(r.id == node.id)), [node.id], none)

/-- src/fs/orm.py `Inode.remove(recursive)`: with `recursive` set, first
remove every child recursively (the select is snapshotted when iteration
starts; a child's failure propagates immediately), then `unlink` self. -/
def fs_remove : Nat → DB → Inode → Bool → DB × List (Option Nat) × Option FErr
  | 0, db, _, _ => (db, [], some .outOfFuel)
  | fuel + 1, db, node, recursive =>
    let res :=
      if recursive then
        (db.filter (fun r => r.parent == node.id)).foldl
          (fun st child =>
            match st with
            | (db1, tr, none) =>
              match fs_remove fuel db1 child true with
              | (db2, tr2, err) => (db2, tr ++ tr2, err)
            | st => st)
          (db, [], none)
      else (db, [], none)
    match res with
    | (db1, tr, none) =>
      match fs_unlink db1 node with
      | (db2, tr2, err) => (db2, tr ++ tr2, err)
    | st => st

/-- src/hisfs/orm.py `Inode.unlink`:

    try:
        self.__class__.get(self.__class__.parent == self)
    except self.__class__.DoesNotExist:
        if self._file is not None:
            delete(self._file)
        self.delete_instance()
    raise DirectoryNotEmpty()

the final `raise` is at method level (not in an `else`), so it executes
on both paths: with a child nothing is deleted, without a child the blob
and the row are deleted — and `DirectoryNotEmpty` is raised anyway. -/
def hisfs_unlink (db : DB) (node : Inode) : DB × Option FErr :=
  match db.find? (fun r => r.parent == node.id) with
  | some _ => (db, some .directoryNotEmpty)
  | none => (db.filter (fun r => !(r.id == node.id)), some .directoryNotEmpty)

/-- Modelled from the spec: no code under src/ raises `RootDeletionError`
(src/fs/messages.py declares the message class, lines 213-219, but it has
no raise site); spec section 4.3 states that `remove` refuses removal of
the root unconditionally, regardless of the recursive flag, before any
other processing.  The guard wraps the fs `remove`. -/
def remove_guarded (fuel : Nat) (db : DB) (node : Inode) (recursive : Bool) :
    DB × List (Option Nat) × Option FErr :=
  if node.parent = none then (db, [], some .rootDeletionError)
  else fs_remove fuel db node recursive

/- ----------------------------------------------------------------- -/
/- Thumbnail sizing                                                   -/
/- ----------------------------------------------------------------- -/

/-- src/hisfs/exceptions.py `NoThumbnailRequired`. -/
inductive ThumbErr
| noThumbnailRequired
deriving DecidableEq, Repr

/-- Python `round` (banker's rounding, round half to even) on a rational. -/
def roundHalfEven (x : ℚ) : ℤ :=
  let f := Int.floor x
  let r := x - f
  if r < 1 / 2 then f
  else if 1 / 2 < r then f + 1
  else if f % 2 = 0 then f else f + 1

/-- src/hisfs/thumbnails.py `_get_new_resolution`:

    fac_x = max_x / current_x
    fac_y = max_y / current_y
    if fac_x >= 1 or fac_y >= 1:
        raise NoThumbnailRequired()
    factor = min(fac_x, fac_y)
    new_x = min(max_x, round(current_x * factor))
    new_y = min(max_y, round(current_y * factor))
    return new_x, new_y

Dimensions are Python ints, the factors exact divisions modelled over ℚ
(the comparisons with 1 and the minimum are exact in IEEE arithmetic for
the integer ranges of image dimensions). -/
def get_new_resolution (orig desired : Int × Int) : Except ThumbErr (Int × Int) :=
  let facX : ℚ := (desired.1 : ℚ) / (orig.1 : ℚ)
  let facY : ℚ := (desired.2 : ℚ) / (orig.2 : ℚ)
  if 1 ≤ facX ∨ 1 ≤ facY then .error .noThumbnailRequired
  else
    let factor := min facX facY
    .ok (min desired.1 (roundHalfEven ((orig.1 : ℚ) * factor)),
         min desired.2 (roundHalfEven ((orig.2 : ℚ) * factor)))

/- ----------------------------------------------------------------- -/
/- Well-formedness and chain predicates                               -/
/- ----------------------------------------------------------------- -/

/-- A well-formed inode table: every row is persisted (has a primary key)
and primary keys identify rows uniquely. -/
def WfDb (db : DB) : Prop :=
  (∀ a ∈ db, a.id ≠ none) ∧ ∀ a ∈ db, ∀ b ∈ db, a.id = b.id → a = b

instance : (db : DB) → Decidable (WfDb db) := fun db => by
  unfold WfDb; infer_instance

/-- The list `cs` is a parent-linked chain hanging below `r`: each element
is a row of the table whose parent FK is the previous element's id. -/
def LinkedFrom (db : DB) : Inode → List Inode → Prop
  | _, [] => True
  | r, c :: cs => c ∈ db ∧ c.parent = r.id ∧ LinkedFrom db c cs

/-- Concrete example rows used to evaluate the model. -/
def exRoot : Inode := ⟨some 0, none, "r", 7, 9, 511, none⟩

/-- Directory `d` under the example root. -/
def exDir : Inode := ⟨some 1, some 0, "d", 7, 9, 511, none⟩

/-- File `f` under the example directory. -/
def exFile : Inode := ⟨some 2, some 1, "f", 7, 9, 511, some 42⟩

/-- Example table: `/r` with directory `d` containing file `f`. -/
def exTree : DB := [exRoot, exDir, exFile]

/-- File named `a` directly under the example root. -/
def exFileA : Inode := ⟨some 3, some 0, "a", 7, 9, 511, some 7⟩

/-- Example table where the first path component is a file. -/
def exTreeA : DB := [exRoot, exFileA]

/-- An inode that was constructed but never saved (null primary key,
null content reference). -/
def exUnsaved : Inode := ⟨none, none, "n", 7, 9, 511, none⟩

/- ----------------------------------------------------------------- -/
/- Theorems                                                           -/
/- ----------------------------------------------------------------- -/

/-- C1: for every tenant with quota limit `L` and every requested size
`n`, `alloc(tenant, n)` fails with `QuotaExceeded` if and only if
`n > L - used(tenant)` evaluated at call time, where `used(tenant)` is
the sum of the sizes of every content-bearing inode record of that
tenant; when `n <= free` the allocation succeeds. -/
theorem quota_alloc_iff (q : CustomerQuota) (sizes : Nat → Nat) (db : DB)
    (n : Int) :
    (q.alloc sizes db n = .error (.quotaExceeded q.quota) ↔
      n > q.quota - q.used sizes db) ∧
    (n ≤ q.free sizes db → q.alloc sizes db n = .ok true) := by
  constructor
  · by_cases h : q.free sizes db < n
    · have h2 : n > q.quota - q.used sizes db := by
        have := h; unfold CustomerQuota.free at this; omega
      simp [CustomerQuota.alloc, h, h2]
    · have h2 : ¬(n > q.quota - q.used sizes db) := by
        intro hc; apply h; unfold CustomerQuota.free; omega
      simp [CustomerQuota.alloc, h, h2]
  · intro h
    have h2 : ¬(q.free sizes db < n) := not_lt.mpr h
    simp [CustomerQuota.alloc, h2]

/-- C1 witness: at a tenant with quota 10, a store where every blob has
size 2 and the example table (one content-bearing row of the tenant),
requesting 9 bytes exceeds the free 8 bytes. -/
theorem quota_alloc_iff_witness :
    ((⟨9, 10⟩ : CustomerQuota).alloc (fun _ => 2) exTree 9 =
        .error (.quotaExceeded 10) ↔
      (9 : Int) > 10 - (⟨9, 10⟩ : CustomerQuota).used (fun _ => 2) exTree) ∧
    ((9 : Int) ≤ (⟨9, 10⟩ : CustomerQuota).free (fun _ => 2) exTree →
      (⟨9, 10⟩ : CustomerQuota).alloc (fun _ => 2) exTree 9 = .ok true) :=
  quota_alloc_iff ⟨9, 10⟩ (fun _ => 2) exTree 9

/-- C2 (amended): a super-user/root principal is always granted by the
three hisfs permission checks (src/hisfs/orm.py readable_by, writable_by,
executable_by) and by the fs `_readable_by` check; the fs `_writable_by`
and `_executable_by` checks however do not consult the root flag (see the
counterexample). -/
theorem root_grants_checks (n : Inode) (user : Account) (group : Nat)
    (mode : Nat) (ownerAcc : Account) (h : user.root = true) :
    n.readable_by user group = true ∧ n.writable_by user group = true ∧
    n.executable_by user group = true ∧
    fs_readable_by mode ownerAcc user = true := by
  simp [Inode.readable_by, Inode.writable_by, Inode.executable_by,
    fs_readable_by, h]

/-- C2 witness: a concrete root account is granted everywhere the amended
claim says. -/
theorem root_grants_checks_witness :
    (⟨5, 5, true⟩ : Account).root = true ∧
    (exDir.readable_by ⟨5, 5, true⟩ 9 = true ∧
      exDir.writable_by ⟨5, 5, true⟩ 9 = true ∧
      exDir.executable_by ⟨5, 5, true⟩ 9 = true ∧
      fs_readable_by 0 ⟨1, 1, false⟩ ⟨5, 5, true⟩ = true) :=
  ⟨rfl, root_grants_checks exDir ⟨5, 5, true⟩ 9 0 ⟨1, 1, false⟩ rfl⟩

/-- C2 counterexample: a principal marked super-user (root flag set) that
is neither the owner nor in the owner's customer is denied by the fs
revision's `_writable_by` and `_executable_by` on a mode-0 inode, so the
claim that all three checks always grant a super-user is false for
src/fs/orm.py. -/
theorem fs_write_exec_ignore_root :
    (⟨2, 2, true⟩ : Account).root = true ∧
    fs_writable_by 0 ⟨1, 1, false⟩ ⟨2, 2, true⟩ = false ∧
    fs_executable_by 0 ⟨1, 1, false⟩ ⟨2, 2, true⟩ = false := by decide

/-- C3: evaluation of `remove`/`unlink` at the example tree.  The fs
revision behaves as the claim states: non-recursive removal of the
populated directory `d` fails with `DirectoryNotEmpty` leaving the table
unchanged, recursive removal deletes the descendant `f` before `d`, and
non-recursive removal of the childless `f` succeeds without error.  The
hisfs revision however deletes the childless row and still reports
`DirectoryNotEmpty` (its `unlink` lacks the `else`), contradicting the
claim's "succeeds without error". -/
theorem remove_childless_divergence :
    fs_remove 3 exTree exDir false = (exTree, [], some .directoryNotEmpty) ∧
    fs_remove 3 exTree exDir true = ([exRoot], [some 2, some 1], none) ∧
    fs_remove 3 exTree exFile false = ([exRoot, exDir], [some 2], none) ∧
    hisfs_unlink exTree exFile = ([exRoot, exDir], some .directoryNotEmpty) := by
  decide

/-- C4: for every root inode (null parent), `remove` fails with
`RootDeletionError` regardless of the recursive flag, and nothing is
deleted.  The guard is modelled from the spec because no code under src/
raises `RootDeletionError` (src/fs/messages.py only declares it). -/
theorem root_removal_guard (fuel : Nat) (db : DB) (node : Inode)
    (recursive : Bool) (h : node.parent = none) :
    remove_guarded fuel db node recursive = (db, [], some .rootDeletionError) := by
  simp [remove_guarded, h]

/-- C4 witness: the example root with either flag value. -/
theorem root_removal_guard_witness :
    exRoot.parent = none ∧
    remove_guarded 5 exTree exRoot true = (exTree, [], some .rootDeletionError) ∧
    remove_guarded 5 exTree exRoot false = (exTree, [], some .rootDeletionError) :=
  ⟨rfl, root_removal_guard 5 exTree exRoot true rfl,
    root_removal_guard 5 exTree exRoot false rfl⟩

/-- C5: resolution discriminates the failures as the claim says (missing
component gives `NoSuchNode`, a file matched while components remain
gives `NotADirectory`), but neither error carries the partial path walked
so far: the raise sites construct the exceptions without the mandatory
`path` argument of src/fs/errors.py, so the payload is absent (in CPython
the call itself fails with `TypeError`). -/
theorem resolve_errors_carry_no_path :
    node_path exTreeA 7 9 "missing" = .error (.noSuchNode none) ∧
    node_path exTreeA 7 9 "a/b/c" = .error (.notADirectory none) := by decide

/-- C7: replacing the content of a file inode first stores the new bytes;
if the store's `add` fails, `WriteError` is raised and the inode's
content reference is unchanged and no deletion is attempted; if `add`
succeeds, the old blob is deleted only afterwards and the new reference
is recorded regardless of whether that deletion fails (the outcome
parameter `deleteFails` does not influence the result). -/
theorem data_replace_order (self : Inode) (old : Nat) (deleteFails : Bool)
    (h : self.file = some old) :
    data_setter self none deleteFails = (self, some .writeError, [.addData]) ∧
    ∀ fid, data_setter self (some fid) deleteFails =
      ({ self with file := some fid }, none,
        [.addData, .deleteRef (some old)]) := by
  constructor <;> simp [data_setter, h]

/-- C7 witness: a persisted file inode with content reference 9. -/
theorem data_replace_order_witness :
    (⟨some 3, none, "g", 1, 1, 0, some 9⟩ : Inode).file = some 9 ∧
    (data_setter ⟨some 3, none, "g", 1, 1, 0, some 9⟩ none false =
        (⟨some 3, none, "g", 1, 1, 0, some 9⟩, some .writeError, [.addData]) ∧
      ∀ fid, data_setter ⟨some 3, none, "g", 1, 1, 0, some 9⟩ (some fid) false =
        ({ (⟨some 3, none, "g", 1, 1, 0, some 9⟩ : Inode) with file := some fid },
          none, [.addData, .deleteRef (some 9)])) :=
  ⟨rfl, data_replace_order ⟨some 3, none, "g", 1, 1, 0, some 9⟩ 9 false rfl⟩

/-- C9: the ancestor walk of src/fs/orm.py `_parents_readable` never
returns once entered with an executable directory parent — the loop body
never reassigns its cursor, so for every fuel bound the walk is still
running (the claimed termination with a boolean is false; concretely the
parent directory `d` of the example tree with mode 511 and a non-owner
account). -/
theorem parents_walk_never_returns :
    ∀ fuel, fs_parents_readable_loop ⟨2, 2, false⟩ fuel
      (some (⟨some 1, some 0, "d", 7, 9, 511, none⟩, ⟨7, 9, false⟩)) =
      .runsForever := by
  intro fuel
  induction fuel with
  | zero => rfl
  | succ n ih =>
    have step : fs_parents_readable_loop ⟨2, 2, false⟩ (n + 1)
        (some (⟨some 1, some 0, "d", 7, 9, 511, none⟩, ⟨7, 9, false⟩)) =
        fs_parents_readable_loop ⟨2, 2, false⟩ n
        (some (⟨some 1, some 0, "d", 7, 9, 511, none⟩, ⟨7, 9, false⟩)) := rfl
    exact step.trans ih

/-- C10: the data setter raises `NotAFile` exactly when the inode has a
null content reference and a non-null primary key; a freshly constructed
record (null id, null content reference) accepts content without error
when the store accepts the bytes. -/
theorem data_setter_not_a_file_guard (self : Inode) (addResult : Option Nat)
    (deleteFails : Bool) :
    ((data_setter self addResult deleteFails).2.1 = some .notAFile ↔
      self.file = none ∧ self.id.isSome = true) ∧
    (self.file = none → self.id = none → ∀ fid,
      (data_setter self (some fid) deleteFails).2.1 = none) := by
  constructor
  · rcases hf : self.file with _ | v <;> rcases hi : self.id with _ | w <;>
      rcases addResult with _ | fid <;> simp [data_setter, hf, hi]
  · intro h1 h2 fid
    simp [data_setter, h1, h2]

/-- C10 witness: the unsaved directory-shaped record accepts content. -/
theorem data_setter_not_a_file_guard_witness :
    ((data_setter exUnsaved (some 5) false).2.1 = some .notAFile ↔
      exUnsaved.file = none ∧ exUnsaved.id.isSome = true) ∧
    (data_setter exUnsaved (some 5) false).2.1 = none :=
  ⟨(data_setter_not_a_file_guard exUnsaved (some 5) false).1,
    (data_setter_not_a_file_guard exUnsaved (some 5) false).2 rfl rfl 5⟩

/-- C8 (amended): thumbnail sizing signals "no thumbnail needed" exactly
when the source is smaller than or equal to the requested resolution in
AT LEAST ONE dimension (the source tests `fac_x >= 1 or fac_y >= 1`), not
in both; otherwise both produced dimensions stay within the requested
bounds (both are scaled by the common factor `min(fac_x, fac_y)` and
clamped to the bounds). -/
theorem thumbnail_signal_bounds (cx cy mx my : Int) (hx : 0 < cx)
    (hy : 0 < cy) :
    (get_new_resolution (cx, cy) (mx, my) = .error .noThumbnailRequired ↔
      cx ≤ mx ∨ cy ≤ my) ∧
    (∀ nx ny, get_new_resolution (cx, cy) (mx, my) = .ok (nx, ny) →
      nx ≤ mx ∧ ny ≤ my) := by
  have hx' : (0 : ℚ) < (cx : ℚ) := by exact_mod_cast hx
  have hy' : (0 : ℚ) < (cy : ℚ) := by exact_mod_cast hy
  have hiff : ((1 : ℚ) ≤ (mx : ℚ) / (cx : ℚ) ∨ (1 : ℚ) ≤ (my : ℚ) / (cy : ℚ)) ↔
      (cx ≤ mx ∨ cy ≤ my) := by
    rw [one_le_div hx', one_le_div hy']
    exact or_congr Int.cast_le Int.cast_le
  by_cases h : (1 : ℚ) ≤ (mx : ℚ) / (cx : ℚ) ∨ (1 : ℚ) ≤ (my : ℚ) / (cy : ℚ)
  · constructor
    · simp only [get_new_resolution, if_pos h]
      simpa using hiff.mp h
    · intro nx ny hcontra
      simp only [get_new_resolution, if_pos h] at hcontra
      exact absurd hcontra (by simp)
  · constructor
    · simp only [get_new_resolution, if_neg h]
      constructor
      · intro hc; cases hc
      · intro hc; exact absurd (hiff.mpr hc) h
    · intro nx ny hok
      simp only [get_new_resolution, if_neg h, Except.ok.injEq, Prod.mk.injEq]
        at hok
      refine ⟨?_, ?_⟩
      · rw [← hok.1]; exact min_le_left _ _
      · rw [← hok.2]; exact min_le_left _ _

/-- C8 witness: a 200x100 source and a 100x50 request (strictly smaller
in both dimensions). -/
theorem thumbnail_signal_bounds_witness :
    (0 : Int) < 200 ∧ (0 : Int) < 100 ∧
    ((get_new_resolution (200, 100) (100, 50) = .error .noThumbnailRequired ↔
        (200 : Int) ≤ 100 ∨ (100 : Int) ≤ 50) ∧
      (∀ nx ny, get_new_resolution (200, 100) (100, 50) = .ok (nx, ny) →
        nx ≤ 100 ∧ ny ≤ 50)) :=
  ⟨by norm_num, by norm_num,
    thumbnail_signal_bounds 200 100 100 50 (by norm_num) (by norm_num)⟩

/-- C8 counterexample: a 100x200 source and a 150x50 request: the source
exceeds the requested height (200 > 50), so by the claim a derivative
should be produced, yet the code signals "no thumbnail needed" because
the width already fits. -/
theorem thumbnail_signal_counterexample :
    get_new_resolution (100, 200) (150, 50) = .error .noThumbnailRequired ∧
    ¬((100 : Int) ≤ 150 → (200 : Int) ≤ 50) := by
  constructor
  · have h : (1 : ℚ) ≤ ((150 : Int) : ℚ) / ((100 : Int) : ℚ) ∨
        (1 : ℚ) ≤ ((50 : Int) : ℚ) / ((200 : Int) : ℚ) := by
      left; norm_num
    simp only [get_new_resolution, if_pos h]
  · norm_num

lemma pjoin_cons (sep x : String) (l : List String) (h : l ≠ []) :
    pjoin sep (x :: l) = x ++ sep ++ pjoin sep l := by
  cases l with
  | nil => exact absurd rfl h
  | cons y ys => rfl

lemma node_path_aux_ok (db : DB) (ow gr : Nat) :
    ∀ (cs : List String) (parent : Inode) (acc chain : List Inode),
      node_path_aux db ow gr parent acc cs = .ok chain →
      ∃ suffix, chain = acc ++ suffix ∧ LinkedFrom db parent suffix ∧
        suffix.map Inode.name = cs := by
  intro cs
  induction cs with
  | nil =>
    intro parent acc chain h
    simp only [node_path_aux, Except.ok.injEq] at h
    exact ⟨[], by simp [h], trivial, rfl⟩
  | cons c rest ih =>
    intro parent acc chain h
    rw [node_path_aux] at h
    cases hg : getrel db c parent ow gr with
    | none => rw [hg] at h; simp at h
    | some found =>
      rw [hg] at h
      dsimp only at h
      by_cases hf : (found.isfile && !rest.isEmpty) = true
      · rw [if_pos hf] at h; exact absurd h (by simp)
      · rw [if_neg hf] at h
        obtain ⟨suffix', hchain, hlink, hnames⟩ := ih found (acc ++ [found]) chain h
        unfold getrel at hg
        have hmem := List.mem_of_find?_eq_some hg
        have hpred := List.find?_some hg
        simp only [Bool.and_eq_true, beq_iff_eq] at hpred
        obtain ⟨⟨⟨hname, hpar⟩, _⟩, _⟩ := hpred
        refine ⟨found :: suffix', ?_, ⟨hmem, hpar, hlink⟩, ?_⟩
        · rw [hchain, List.append_assoc]; rfl
        · simp [hnames, hname]

lemma linked_snoc (db : DB) :
    ∀ (xs : List Inode) (r y : Inode), LinkedFrom db r (xs ++ [y]) →
      LinkedFrom db r xs ∧ y ∈ db ∧
        ∀ t, (r :: xs).getLast? = some t → y.parent = t.id := by
  intro xs
  induction xs with
  | nil =>
    intro r y h
    obtain ⟨hm, hp, _⟩ := h
    refine ⟨trivial, hm, ?_⟩
    intro t ht
    simp only [List.getLast?_singleton, Option.some.injEq] at ht
    rw [hp, ht]
  | cons x xs' ih =>
    intro r y h
    rw [List.cons_append] at h
    obtain ⟨hm, hp, hrest⟩ := h
    obtain ⟨hl', hym, hlast⟩ := ih x y hrest
    refine ⟨⟨hm, hp, hl'⟩, hym, ?_⟩
    intro t ht
    exact hlast t (by rw [← List.getLast?_cons_cons]; exact ht)

lemma linked_last_mem (db : DB) :
    ∀ (xs : List Inode) (r : Inode), r ∈ db → LinkedFrom db r xs →
      ∀ t, (r :: xs).getLast? = some t → t ∈ db := by
  intro xs
  induction xs with
  | nil =>
    intro r hr _ t ht
    simp only [List.getLast?_singleton, Option.some.injEq] at ht
    rw [← ht]; exact hr
  | cons x xs' ih =>
    intro r hr h t ht
    obtain ⟨hm, _, hrest⟩ := h
    exact ih x hm hrest t (by rw [← List.getLast?_cons_cons]; exact ht)

lemma find_by_id (db : DB) (wf : WfDb db) (t : Inode) (ht : t ∈ db) (k : Nat)
    (hk : t.id = some k) :
    db.find? (fun x => x.id == some k) = some t := by
  have hex : (db.find? (fun x => x.id == some k)).isSome := by
    rw [List.find?_isSome]
    exact ⟨t, ht, by simp [hk]⟩
  obtain ⟨x, hx⟩ := Option.isSome_iff_exists.mp hex
  have hxm := List.mem_of_find?_eq_some hx
  have hxp := List.find?_some hx
  have hxk : x.id = some k := by simpa using hxp
  have hxt : x = t := wf.2 x hxm t ht (by rw [hxk, hk])
  rw [hx, hxt]

lemma parentChain_of_linked (db : DB) (wf : WfDb db) :
    ∀ (rest : List Inode) (root : Inode), root ∈ db → root.parent = none →
      LinkedFrom db root rest →
      ∀ t, (root :: rest).getLast? = some t →
      parentChain db (rest.length + 1) t = some (root :: rest).dropLast.reverse := by
  intro rest
  induction rest using List.reverseRecOn with
  | nil =>
    intro root hmem hpar _ t ht
    simp only [List.getLast?_singleton, Option.some.injEq] at ht
    subst ht
    simp [parentChain, hpar]
  | append_singleton xs y ih =>
    intro root hmem hpar hlink t ht
    obtain ⟨hlx, hym, hylast⟩ := linked_snoc db xs root y hlink
    have hty : t = y := by
      rw [show root :: (xs ++ [y]) = (root :: xs) ++ [y] from rfl,
        List.getLast?_concat] at ht
      exact (Option.some.inj ht).symm
    subst hty
    have hne : (root :: xs) ≠ [] := by simp
    obtain ⟨prev, hprev⟩ : ∃ p, (root :: xs).getLast? = some p :=
      Option.isSome_iff_exists.mp (by simp [List.getLast?_isSome])
    have hprevmem : prev ∈ db := linked_last_mem db xs root hmem hlx prev hprev
    have hpid : t.parent = prev.id := hylast prev hprev
    obtain ⟨k, hk⟩ : ∃ k, prev.id = some k := by
      have := wf.1 prev hprevmem
      cases hpi : prev.id with
      | none => exact absurd hpi this
      | some v => exact ⟨v, rfl⟩
    have hfind : db.find? (fun x => x.id == some k) = some prev :=
      find_by_id db wf prev hprevmem k hk
    have hlen : (xs ++ [t]).length + 1 = xs.length + 1 + 1 := by simp
    rw [hlen, parentChain, hpid, hk]
    dsimp only
    rw [hfind]
    dsimp only
    rw [ih root hmem hpar hlx prev hprev]
    have hrev : (root :: xs).reverse = prev :: (root :: xs).dropLast.reverse := by
      conv_lhs => rw [← List.dropLast_append_getLast hne]
      rw [List.reverse_append]
      have hgl := List.getLast?_eq_getLast (root :: xs) hne
      rw [hgl] at hprev
      simp [Option.some.inj hprev]
    simp only [Option.map_some']
    rw [show (root :: (xs ++ [t])).dropLast = root :: xs by
      rw [show root :: (xs ++ [t]) = (root :: xs) ++ [t] from rfl, List.dropLast_concat]]
    rw [hrev]

lemma inode_path_of_chain (db : DB) (wf : WfDb db) (root : Inode)
    (rest : List Inode) (hmem : root ∈ db) (hpar : root.parent = none)
    (hlink : LinkedFrom db root rest) (t : Inode)
    (ht : (root :: rest).getLast? = some t) :
    inode_path db (rest.length + 1) t =
      some ("/" ++ pjoin "/" ((root :: rest).map Inode.name)) := by
  have hpc := parentChain_of_linked db wf rest root hmem hpar hlink t ht
  unfold inode_path revpathNames
  rw [hpc]
  simp only [Option.map_some', Option.some.injEq]
  have hne : (root :: rest) ≠ [] := by simp
  have hgl := List.getLast?_eq_getLast (root :: rest) hne
  rw [hgl] at ht
  have htt := Option.some.inj ht
  have hdrop : (root :: rest).dropLast ++ [t] = root :: rest := by
    rw [← htt]; exact List.dropLast_append_getLast hne
  have hmap : (root.name :: List.map Inode.name rest).dropLast ++ [t.name] =
      root.name :: List.map Inode.name rest := by
    have hcongr := congrArg (List.map Inode.name) hdrop
    simpa using hcongr
  have hlist : ((t.name :: List.map Inode.name ((root :: rest).dropLast.reverse))
      ++ [""]).reverse = "" :: List.map Inode.name (root :: rest) := by
    simp [hmap]
  rw [hlist, pjoin_cons "/" "" (List.map Inode.name (root :: rest)) (by simp)]
  rfl

/-- C6 (amended): a path resolves successfully only as a scope-relative
component list; walking `.path` on the resolved target then yields the
separator, the scope root's own name, and the normalized components of
`p` joined by separators — i.e. `p` is reconstructed only up to
normalization and after stripping the leading `"/" ++ root.name` prefix
(an absolute `p` never resolves, its leading empty component being looked
up as a child name). -/
theorem path_roundtrip_prefixed (db : DB) (ow gr : Nat) (p : String)
    (chain : List Inode) (wf : WfDb db) (h : node_path db ow gr p = .ok chain) :
    (∃ rt rest, chain = rt :: rest ∧ rest.map Inode.name = pathComponents p) ∧
    ∀ t, chain.getLast? = some t →
      inode_path db chain.length t =
        some ("/" ++ pjoin "/" (chain.map Inode.name)) := by
  unfold node_path at h
  cases hr : root_for db ow gr with
  | none => rw [hr] at h; simp at h
  | some root =>
    rw [hr] at h
    dsimp only at h
    obtain ⟨suffix, hchain, hlink, hnames⟩ :=
      node_path_aux_ok db ow gr (pathComponents p) root [root] chain h
    unfold root_for at hr
    have hrmem := List.mem_of_find?_eq_some hr
    have hrpred := List.find?_some hr
    simp only [Bool.and_eq_true, Option.isNone_iff_eq_none, beq_iff_eq]
      at hrpred
    obtain ⟨⟨⟨_, hrpar⟩, _⟩, _⟩ := hrpred
    have hchain' : chain = root :: suffix := by simpa using hchain
    constructor
    · exact ⟨root, suffix, hchain', hnames⟩
    · intro t ht
      rw [hchain'] at ht
      rw [hchain']
      simpa using inode_path_of_chain db wf root suffix hrmem hrpar hlink t ht

/-- C6 counterexample: the relative path `d` resolves successfully from
the example root, but `.path` on the result is `/r/d`, not `d` — the
round-trip does not reconstruct the resolved path. -/
theorem path_roundtrip_counterexample :
    node_path exTree 7 9 "d" = .ok [exRoot, exDir] ∧
    inode_path exTree 2 exDir = some "/r/d" ∧ "/r/d" ≠ "d" := by decide

/-- C6 witness: the amended statement instantiated at the example tree
and the path `d/f`. -/
theorem path_roundtrip_prefixed_witness :
    WfDb exTree ∧ node_path exTree 7 9 "d/f" = .ok [exRoot, exDir, exFile] ∧
    ((∃ rt rest, ([exRoot, exDir, exFile] : List Inode) = rt :: rest ∧
        rest.map Inode.name = pathComponents "d/f") ∧
      ∀ t, ([exRoot, exDir, exFile] : List Inode).getLast? = some t →
        inode_path exTree ([exRoot, exDir, exFile] : List Inode).length t =
          some ("/" ++ pjoin "/"
            (([exRoot, exDir, exFile] : List Inode).map Inode.name))) :=
  ⟨by decide, by decide,
    path_roundtrip_prefixed exTree 7 9 "d/f" [exRoot, exDir, exFile]
      (by decide) (by decide)⟩

end HisFS
